import Mathlib

/-!
Verification of the OCI registry getter of `helm.sh/helm/v3`
(`internal/experimental/registry/getter.go` and `pkg/getter/registrygetter.go`).

The Go sources are embedded shallowly:

* `url.URL` becomes the structure `URL` (the fields the code can observe);
* Go errors become `GoErr` (strings), `*bytes.Buffer` becomes `Option ByteBuf`
  (`none` models a `nil` buffer pointer);
* the collaborators that live outside the verified core (`url.Parse`,
  `ParseReference`, `Client.PullChart`, `Client.LoadChart`, `chartutil.Write`)
  are fields of an environment record `GetEnv`; the client carries an abstract
  mutable state `σ` threaded through its calls;
* `Getter.Get`, `Getter.Filename` and `RegistryGetter.Get` are translated
  statement by statement from `getter.go` / `registrygetter.go`.
-/

namespace HelmRegistry

/-- A Go `error` value, modelled by its message. -/
abbrev GoErr := String

/-- The contents of a `bytes.Buffer`, as a list of bytes. -/
abbrev ByteBuf := List Nat

/-- The loaded chart (`*chart.Chart`); opaque to the getter except that it is
passed whole to `chartutil.Write`. -/
structure Chart where
  name : String
  version : String
  data : List Nat
deriving DecidableEq, Repr

/-- The fields of Go's `url.URL` that the sources can observe. `Getter.Get`
reads only `host` and `path`; the other fields exist so that claims about
hrefs differing in scheme, query, fragment or user info are statable. -/
structure URL where
  scheme : String
  user : String
  host : String
  path : String
  rawQuery : String
  fragment : String
deriving DecidableEq, Repr

/-- A registry reference (spec section 3): host, repository path and exactly
one tag. `ParseReference` in the sources produces such a value. -/
structure Reference where
  host : String
  repoPath : String
  tag : String
deriving DecidableEq, Repr

/-! ### String helpers for `Filename`

`Getter.Filename` computes `strings.Split(filepath.Base(u.Path), ":")[0]`.
`filepathBase` models Go's `path/filepath.Base` on a Unix path ('/' separator,
no volume names): empty path gives ".", trailing separators are stripped, the
last element is returned, and an all-separator path gives "/".
`splitOnColon` models `strings.Split(s, ":")`: it splits around every ':' and
always returns at least one (possibly empty) piece. -/

/-- The characters of `p` after the last '/' (the whole of `p` when it has
no '/'). -/
def lastSegmentChars (p : String) : List Char :=
  (p.toList.reverse.takeWhile (fun c => c ≠ '/')).reverse

/-- Model of Go `path/filepath.Base` for Unix paths. -/
def filepathBase (path : String) : String :=
  if path = "" then "."
  else
    let trimmed := (path.toList.reverse.dropWhile (fun c => c = '/')).reverse
    let base := (trimmed.reverse.takeWhile (fun c => c ≠ '/')).reverse
    if base.isEmpty then "/" else String.mk base

/-- Model of Go `strings.Split(·, ":")` on the character list. -/
def splitOnColon : List Char → List (List Char)
  | [] => [[]]
  | c :: cs =>
    match splitOnColon cs with
    | [] => [[c]]
    | h :: t => if c = ':' then [] :: h :: t else (c :: h) :: t

/-- `strings.Split(s, ":")`. -/
def goSplitColon (s : String) : List String :=
  (splitOnColon s.toList).map String.mk

theorem splitOnColon_ne_nil (l : List Char) : splitOnColon l ≠ [] := by
  cases l with
  | nil => simp [splitOnColon]
  | cons c cs =>
    simp only [splitOnColon]
    cases h : splitOnColon cs with
    | nil => simp
    | cons h t =>
      by_cases hc : c = ':' <;> simp [hc]

theorem splitOnColon_head (l : List Char) :
    (splitOnColon l).head? = some (l.takeWhile (fun c => c ≠ ':')) := by
  induction l with
  | nil => rfl
  | cons c cs ih =>
    simp only [splitOnColon]
    cases h : splitOnColon cs with
    | nil => exact absurd h (splitOnColon_ne_nil cs)
    | cons hd tl =>
      rw [h] at ih
      have ih2 : hd = cs.takeWhile (fun c => c ≠ ':') := by
        simpa using ih
      by_cases hc : c = ':'
      · subst hc
        simp [List.takeWhile_cons]
      · simp [if_neg hc, List.takeWhile_cons, hc, ih2]

theorem goSplitColon_ne_nil (s : String) : goSplitColon s ≠ [] := by
  simp only [goSplitColon, ne_eq, List.map_eq_nil_iff]
  exact splitOnColon_ne_nil s.toList

/-! ### The Getter (`internal/experimental/registry/getter.go`) -/

/-- The registry client collaborator (`*registry.Client`), with an abstract
internal state `σ` (its cache, credentials, ...). `pullChart` models
`Client.PullChart(ref) error`; `loadChart` models
`Client.LoadChart(ref) (*chart.Chart, error)`. -/
structure ClientOps (σ : Type) where
  pullChart : σ → Reference → σ × Option GoErr
  loadChart : σ → Reference → σ × Except GoErr Chart

/-- The environment of collaborators available to `Getter.Get`:
`parseURL` is `net/url.Parse`, `parseReference` is the registry package's
`ParseReference`, `client` is the `Getter.Client` field, and `chartWrite`
models `chartutil.Write(c, buf)` by the bytes it leaves in the fresh buffer
together with its error result. -/
structure GetEnv (σ : Type) where
  parseURL : String → Except GoErr URL
  parseReference : String → Except GoErr Reference
  client : ClientOps σ
  chartWrite : Chart → ByteBuf × Option GoErr

/-- Translation of `(g *Getter) Get(href string) (*bytes.Buffer, error)`:
parse the href, parse `u.Host + u.Path` into a reference, pull the chart,
load it, then write it to a fresh buffer and return `buf, err`. A `nil`
buffer result is `none`; note the final step returns the buffer together
with `chartutil.Write`'s error, whatever that error is. -/
def Getter.Get {σ : Type} (env : GetEnv σ) (s : σ) (href : String) :
    σ × (Option ByteBuf × Option GoErr) :=
  match env.parseURL href with
  | Except.error e => (s, (none, some e))
  | Except.ok u =>
    match env.parseReference (u.host ++ u.path) with
    | Except.error e => (s, (none, some e))
    | Except.ok ref =>
      match env.client.pullChart s ref with
      | (s1, some e) => (s1, (none, some e))
      | (s1, none) =>
        match env.client.loadChart s1 ref with
        | (s2, Except.error e) => (s2, (none, some e))
        | (s2, Except.ok c) =>
          let w := env.chartWrite c
          (s2, (some w.fst, w.snd))

/-- Translation of `(g *Getter) Filename(u *url.URL, version string)`:
`fmt.Sprintf("%s-%s.tgz", strings.Split(filepath.Base(u.Path), ":")[0],
version)`. -/
def Getter.Filename (u : URL) (version : String) : String :=
  let parts := goSplitColon (filepathBase u.path)
  parts.headD "" ++ "-" ++ version ++ ".tgz"

/-- Spec-side description of the base name in section 4.3: the portion of a
string before its first ':'. -/
def truncAtFirstColon (s : String) : String :=
  String.mk (s.toList.takeWhile (fun c => c ≠ ':'))

theorem goSplitColon_headD (s : String) :
    (goSplitColon s).headD "" = truncAtFirstColon s := by
  simp only [goSplitColon, truncAtFirstColon]
  have h := splitOnColon_head s.toList
  cases hs : splitOnColon s.toList with
  | nil => exact absurd hs (splitOnColon_ne_nil s.toList)
  | cons hd tl =>
    rw [hs] at h
    simp only [List.head?, Option.some.injEq] at h
    simp [h]

/-! ### Instrumented pipeline

`Getter.GetTraced` is `Getter.Get` with a ghost trace of the calls it makes,
used to state in which order the collaborators are invoked and that a failing
step prevents every later call. Its result component agrees with
`Getter.Get` (`getTraced_fst`). -/

/-- One call made by the pipeline, in the order the Go source makes them. -/
inductive CallEvent where
  | parseURL (href : String)
  | parseReference (s : String)
  | pullChart (r : Reference)
  | loadChart (r : Reference)
  | chartWrite (c : Chart)
deriving DecidableEq, Repr

/-- `Getter.Get` together with its ghost call trace. -/
def Getter.GetTraced {σ : Type} (env : GetEnv σ) (s : σ) (href : String) :
    (σ × (Option ByteBuf × Option GoErr)) × List CallEvent :=
  match env.parseURL href with
  | Except.error e => ((s, (none, some e)), [CallEvent.parseURL href])
  | Except.ok u =>
    match env.parseReference (u.host ++ u.path) with
    | Except.error e =>
      ((s, (none, some e)),
        [CallEvent.parseURL href, CallEvent.parseReference (u.host ++ u.path)])
    | Except.ok ref =>
      match env.client.pullChart s ref with
      | (s1, some e) =>
        ((s1, (none, some e)),
          [CallEvent.parseURL href, CallEvent.parseReference (u.host ++ u.path),
            CallEvent.pullChart ref])
      | (s1, none) =>
        match env.client.loadChart s1 ref with
        | (s2, Except.error e) =>
          ((s2, (none, some e)),
            [CallEvent.parseURL href, CallEvent.parseReference (u.host ++ u.path),
              CallEvent.pullChart ref, CallEvent.loadChart ref])
        | (s2, Except.ok c) =>
          let w := env.chartWrite c
          ((s2, (some w.fst, w.snd)),
            [CallEvent.parseURL href, CallEvent.parseReference (u.host ++ u.path),
              CallEvent.pullChart ref, CallEvent.loadChart ref,
              CallEvent.chartWrite c])

theorem getTraced_fst {σ : Type} (env : GetEnv σ) (s : σ) (href : String) :
    (Getter.GetTraced env s href).fst = Getter.Get env s href := by
  cases hu : env.parseURL href with
  | error e => simp [Getter.Get, Getter.GetTraced, hu]
  | ok u =>
    cases hr : env.parseReference (u.host ++ u.path) with
    | error e => simp [Getter.Get, Getter.GetTraced, hu, hr]
    | ok ref =>
      cases hpc : env.client.pullChart s ref with
      | mk s1 pe =>
        cases pe with
        | some e => simp [Getter.Get, Getter.GetTraced, hu, hr, hpc]
        | none =>
          cases hlc : env.client.loadChart s1 ref with
          | mk s2 lr =>
            cases lr with
            | error e => simp [Getter.Get, Getter.GetTraced, hu, hr, hpc, hlc]
            | ok c => simp [Getter.Get, Getter.GetTraced, hu, hr, hpc, hlc]

/-! ### The resolution step (`URL` / `GetWithDetails` of the RegistryGetter)

The function exercised by `TestAppendsVersionToURL`, `TestDoesntOverrideTagOnURL`
and `TestErrorsIfNeitherVersionNorURLIsProvided` is not among the source files;
only its tests are. It is modelled here from the spec. -/

/-- Error kinds of the resolver (spec section 7). -/
inductive ResolveError where
  | MissingVersion
deriving DecidableEq, Repr

/-- The last path segment of `p` contains a ':' (an embedded tag is present,
spec section 4.1 rule 1). -/
def segHasColon (p : String) : Bool :=
  (lastSegmentChars p).any (fun c => c = ':')

/-- The part of `p` up to and including its last '/'. -/
def pathDir (p : String) : String :=
  String.mk ((p.toList.reverse.dropWhile (fun c => c ≠ '/')).reverse)

/-- The tag embedded in a path segment: the characters after the first ':'. -/
def tagOfSegment (seg : List Char) : String :=
  String.mk ((seg.dropWhile (fun c => c ≠ ':')).drop 1)

/-- Modelled from the spec: the `RegistryGetter` resolution step (the `URL` /
`GetWithDetails` method of `pkg/getter/registrygetter.go`, whose implementation
is missing from the sources; only its tests remain). Spec section 4.1:
if the last path segment carries a ':'-separated tag, that tag wins and the
explicit version is ignored; otherwise a non-empty explicit version is
appended to the path; otherwise resolution fails with `MissingVersion`. -/
def Resolve (u : URL) (explicitVersion : String) : Except ResolveError Reference :=
  if segHasColon u.path then
    let seg := lastSegmentChars u.path
    Except.ok
      { host := u.host
        repoPath := pathDir u.path ++ String.mk (seg.takeWhile (fun c => c ≠ ':'))
        tag := tagOfSegment seg }
  else if explicitVersion ≠ "" then
    Except.ok { host := u.host, repoPath := u.path, tag := explicitVersion }
  else
    Except.error ResolveError.MissingVersion

/-! ### The public wrapper (`pkg/getter/registrygetter.go`) -/

/-- Translation of `(rg *RegistryGetter) Get(href string, options ...Option)`:
it forwards to the underlying registry `Getter.Get` with the href alone,
discarding the variadic options (of mere type `Opt` here, since `getter.Option`
is opaque to this file). -/
def RegistryGetter.Get {σ Opt : Type} (env : GetEnv σ) (s : σ) (href : String)
    (options : List Opt) : σ × (Option ByteBuf × Option GoErr) :=
  Getter.Get env s href

/-! ### Concrete inputs used by the witnesses -/

/-- The locator of `TestDoesntOverrideTagOnURL`:
`oci://registry/testrepo/testchart:latest`, as parsed. -/
def uTagged : URL :=
  { scheme := "oci", user := "", host := "registry",
    path := "/testrepo/testchart:latest", rawQuery := "", fragment := "" }

/-- The locator of `TestAppendsVersionToURL`:
`oci://registry/testrepo/testchart`, as parsed. -/
def uPlain : URL :=
  { scheme := "oci", user := "", host := "registry",
    path := "/testrepo/testchart", rawQuery := "", fragment := "" }

/-! ### Claims about the resolution step -/

/-- C1: for every locator whose last path segment contains an embedded tag
(a ':' after the last '/'), resolving with any non-empty explicit version
yields the same Reference as resolving with the empty explicit version: the
existing tag wins and the explicit version is ignored. -/
theorem resolve_tag_wins (u : URL) (v : String)
    (htag : segHasColon u.path = true) (hv : v ≠ "") :
    Resolve u v = Resolve u "" := by
  simp [Resolve, htag]

theorem resolve_tag_wins_witness :
    Resolve uTagged "0.1.0" = Resolve uTagged "" :=
  resolve_tag_wins uTagged "0.1.0" (by decide) (by decide)

/-- C2: for every locator with no embedded tag and every non-empty explicit
version, resolution succeeds with the explicit version as the tag, appended
to the unchanged locator path. -/
theorem resolve_appends_version (u : URL) (v : String)
    (hnotag : segHasColon u.path = false) (hv : v ≠ "") :
    Resolve u v = Except.ok { host := u.host, repoPath := u.path, tag := v } := by
  simp [Resolve, hnotag, hv]

theorem resolve_appends_version_witness :
    Resolve uPlain "0.1.0" =
      Except.ok { host := "registry", repoPath := "/testrepo/testchart",
                  tag := "0.1.0" } :=
  resolve_appends_version uPlain "0.1.0" (by decide) (by decide)

/-- C3: for every locator with no embedded tag, resolution with an empty
explicit version fails with the MissingVersion error; there is no fallback
to a default tag. -/
theorem resolve_missing_version_error (u : URL)
    (hnotag : segHasColon u.path = false) :
    Resolve u "" = Except.error ResolveError.MissingVersion := by
  simp [Resolve, hnotag]

theorem resolve_missing_version_error_witness :
    Resolve uPlain "" = Except.error ResolveError.MissingVersion :=
  resolve_missing_version_error uPlain (by decide)

/-! ### Claims about `Filename` -/

/-- C6: for every URL and version, `Filename` returns the last path segment
truncated at the first ':' (any tag is discarded), then '-', then the version
argument verbatim, then the '.tgz' extension. -/
theorem filename_formats_base_version_tgz (u : URL) (version : String) :
    Getter.Filename u version =
      truncAtFirstColon (filepathBase u.path) ++ "-" ++ version ++ ".tgz" := by
  simp only [Getter.Filename]
  rw [goSplitColon_headD]

/-- C8: `Filename` is total: for every URL (empty or colon-free path
included) the ':'-split of the base segment is non-empty, its first element
is in bounds, and `Filename` returns that element formatted with the version
and extension. -/
theorem filename_total_in_bounds (u : URL) (version : String) :
    ∃ h : goSplitColon (filepathBase u.path) ≠ [],
      Getter.Filename u version =
        (goSplitColon (filepathBase u.path)).head h ++ "-" ++ version ++ ".tgz" := by
  refine ⟨goSplitColon_ne_nil _, ?_⟩
  simp only [Getter.Filename]
  have hhead : ∀ (l : List String) (h : l ≠ []), l.headD "" = l.head h := by
    intro l h
    cases l with
    | nil => exact absurd rfl h
    | cons a t => rfl
  rw [hhead _ (goSplitColon_ne_nil _)]

/-! ### Concrete environments used by counterexample and witnesses -/

/-- A sample loaded chart. -/
def chartOk : Chart := { name := "testchart", version := "1.2.3", data := [1, 2, 3] }

/-- A sample parsed reference. -/
def refOk : Reference :=
  { host := "registry", repoPath := "/testrepo/testchart", tag := "1.2.3" }

/-- Collaborators (unit client state) whose parse, reference parse, pull and
load steps all succeed but whose encode step fails without writing a byte. -/
def envEncodeFail : GetEnv Unit :=
  { parseURL := fun _ => Except.ok uTagged
    parseReference := fun _ => Except.ok refOk
    client :=
      { pullChart := fun s _ => (s, none)
        loadChart := fun s _ => (s, Except.ok chartOk) }
    chartWrite := fun _ => ([], some "encode failed") }

/-! ### Claims about the retrieval pipeline -/

/-- C4 as stated is refuted: against collaborators whose pull and load succeed
but whose encode step fails, `Getter.Get` returns the encode error together
with a non-nil buffer (the Go code ends with `return buf, err`), not no
buffer. -/
theorem get_encode_failure_keeps_buffer :
    (Getter.Get envEncodeFail () "oci://registry/testrepo/testchart:1.2.3").snd
        = (some [], some "encode failed") ∧
    (Getter.Get envEncodeFail () "oci://registry/testrepo/testchart:1.2.3").snd.fst
        ≠ none := by
  exact ⟨rfl, by decide⟩

/-- C4 (amended): `Get` propagates each failing step's error unchanged; a
failure of the parse, reference-parse, pull or load step returns no buffer;
when pull and load succeed but the encode step fails, `Get` returns the
encode error together with the (possibly partially written) buffer. -/
theorem get_error_transparent {σ : Type} (env : GetEnv σ) (s : σ) (href : String) :
    (∀ e, env.parseURL href = Except.error e →
      Getter.Get env s href = (s, (none, some e))) ∧
    (∀ u e, env.parseURL href = Except.ok u →
      env.parseReference (u.host ++ u.path) = Except.error e →
      Getter.Get env s href = (s, (none, some e))) ∧
    (∀ u ref s1 e, env.parseURL href = Except.ok u →
      env.parseReference (u.host ++ u.path) = Except.ok ref →
      env.client.pullChart s ref = (s1, some e) →
      Getter.Get env s href = (s1, (none, some e))) ∧
    (∀ u ref s1 s2 e, env.parseURL href = Except.ok u →
      env.parseReference (u.host ++ u.path) = Except.ok ref →
      env.client.pullChart s ref = (s1, none) →
      env.client.loadChart s1 ref = (s2, Except.error e) →
      Getter.Get env s href = (s2, (none, some e))) ∧
    (∀ u ref s1 s2 c bs e, env.parseURL href = Except.ok u →
      env.parseReference (u.host ++ u.path) = Except.ok ref →
      env.client.pullChart s ref = (s1, none) →
      env.client.loadChart s1 ref = (s2, Except.ok c) →
      env.chartWrite c = (bs, some e) →
      Getter.Get env s href = (s2, (some bs, some e))) := by
  refine ⟨?_, ?_, ?_, ?_, ?_⟩
  · intro e h1
    simp [Getter.Get, h1]
  · intro u e h1 h2
    simp [Getter.Get, h1, h2]
  · intro u ref s1 e h1 h2 h3
    simp [Getter.Get, h1, h2, h3]
  · intro u ref s1 s2 e h1 h2 h3 h4
    simp [Getter.Get, h1, h2, h3, h4]
  · intro u ref s1 s2 c bs e h1 h2 h3 h4 h5
    simp [Getter.Get, h1, h2, h3, h4, h5]

theorem get_error_transparent_witness :
    Getter.Get envEncodeFail () "oci://registry/testrepo/testchart:1.2.3" =
      ((), (some [], some "encode failed")) :=
  (get_error_transparent envEncodeFail ()
      "oci://registry/testrepo/testchart:1.2.3").2.2.2.2
    uTagged refOk () () chartOk [] "encode failed" rfl rfl rfl rfl rfl

/-- C5: the pipeline performs its steps in a fixed order, each only after the
previous succeeds: parse the href, build the reference from host and path,
pull, load, encode; on a step's failure the trace stops there, so no later
collaborator is called. The first conjunct ties the instrumented trace to
`Getter.Get` itself. -/
theorem get_pipeline_order {σ : Type} (env : GetEnv σ) (s : σ) (href : String) :
    ((Getter.GetTraced env s href).fst = Getter.Get env s href) ∧
    (∀ e, env.parseURL href = Except.error e →
      (Getter.GetTraced env s href).snd = [CallEvent.parseURL href]) ∧
    (∀ u e, env.parseURL href = Except.ok u →
      env.parseReference (u.host ++ u.path) = Except.error e →
      (Getter.GetTraced env s href).snd =
        [CallEvent.parseURL href,
          CallEvent.parseReference (u.host ++ u.path)]) ∧
    (∀ u ref s1 e, env.parseURL href = Except.ok u →
      env.parseReference (u.host ++ u.path) = Except.ok ref →
      env.client.pullChart s ref = (s1, some e) →
      (Getter.GetTraced env s href).snd =
        [CallEvent.parseURL href,
          CallEvent.parseReference (u.host ++ u.path),
          CallEvent.pullChart ref]) ∧
    (∀ u ref s1 s2 e, env.parseURL href = Except.ok u →
      env.parseReference (u.host ++ u.path) = Except.ok ref →
      env.client.pullChart s ref = (s1, none) →
      env.client.loadChart s1 ref = (s2, Except.error e) →
      (Getter.GetTraced env s href).snd =
        [CallEvent.parseURL href,
          CallEvent.parseReference (u.host ++ u.path),
          CallEvent.pullChart ref, CallEvent.loadChart ref]) ∧
    (∀ u ref s1 s2 c, env.parseURL href = Except.ok u →
      env.parseReference (u.host ++ u.path) = Except.ok ref →
      env.client.pullChart s ref = (s1, none) →
      env.client.loadChart s1 ref = (s2, Except.ok c) →
      (Getter.GetTraced env s href).snd =
        [CallEvent.parseURL href,
          CallEvent.parseReference (u.host ++ u.path),
          CallEvent.pullChart ref, CallEvent.loadChart ref,
          CallEvent.chartWrite c]) := by
  refine ⟨getTraced_fst env s href, ?_, ?_, ?_, ?_, ?_⟩
  · intro e h1
    simp [Getter.GetTraced, h1]
  · intro u e h1 h2
    simp [Getter.GetTraced, h1, h2]
  · intro u ref s1 e h1 h2 h3
    simp [Getter.GetTraced, h1, h2, h3]
  · intro u ref s1 s2 e h1 h2 h3 h4
    simp [Getter.GetTraced, h1, h2, h3, h4]
  · intro u ref s1 s2 c h1 h2 h3 h4
    simp [Getter.GetTraced, h1, h2, h3, h4]

theorem get_pipeline_order_witness :
    (Getter.GetTraced envEncodeFail () "oci://registry/testrepo/testchart:1.2.3").snd =
      [CallEvent.parseURL "oci://registry/testrepo/testchart:1.2.3",
        CallEvent.parseReference (uTagged.host ++ uTagged.path),
        CallEvent.pullChart refOk, CallEvent.loadChart refOk,
        CallEvent.chartWrite chartOk] :=
  (get_pipeline_order envEncodeFail ()
      "oci://registry/testrepo/testchart:1.2.3").2.2.2.2.2
    uTagged refOk () () chartOk rfl rfl rfl rfl

/-- When the client's pull and load results do not depend on its state, the
output of `Getter.Get` does not depend on the starting state either. -/
theorem get_output_state_oblivious {σ : Type} (env : GetEnv σ) (href : String)
    (fpull : Reference → Option GoErr) (fload : Reference → Except GoErr Chart)
    (hpull : ∀ t r, (env.client.pullChart t r).snd = fpull r)
    (hload : ∀ t r, (env.client.loadChart t r).snd = fload r)
    (s t : σ) :
    (Getter.Get env s href).snd = (Getter.Get env t href).snd := by
  cases hu : env.parseURL href with
  | error e => simp [Getter.Get, hu]
  | ok u =>
    cases hr : env.parseReference (u.host ++ u.path) with
    | error e => simp [Getter.Get, hu, hr]
    | ok ref =>
      rcases hps : env.client.pullChart s ref with ⟨s1, p⟩
      rcases hpt : env.client.pullChart t ref with ⟨t1, q⟩
      have hp1 : p = fpull ref := by
        have h := hpull s ref
        rw [hps] at h
        exact h
      have hq1 : q = fpull ref := by
        have h := hpull t ref
        rw [hpt] at h
        exact h
      cases hfp : fpull ref with
      | some e =>
        rw [hfp] at hp1 hq1
        subst hp1
        subst hq1
        simp [Getter.Get, hu, hr, hps, hpt]
      | none =>
        rw [hfp] at hp1 hq1
        subst hp1
        subst hq1
        rcases hls : env.client.loadChart s1 ref with ⟨s2, l⟩
        rcases hlt : env.client.loadChart t1 ref with ⟨t2, m⟩
        have hl1 : l = fload ref := by
          have h := hload s1 ref
          rw [hls] at h
          exact h
        have hm1 : m = fload ref := by
          have h := hload t1 ref
          rw [hlt] at h
          exact h
        cases hfl : fload ref with
        | error e =>
          rw [hfl] at hl1 hm1
          subst hl1
          subst hm1
          simp [Getter.Get, hu, hr, hps, hpt, hls, hlt]
        | ok c =>
          rw [hfl] at hl1 hm1
          subst hl1
          subst hm1
          simp [Getter.Get, hu, hr, hps, hpt, hls, hlt]

/-- C7: `Get` is deterministic in its collaborators: when the client's pull
and load results are state-independent (a deterministic client) and the codec
is the pure `chartWrite`, a second sequential `Get` of the same href (run in
the client state the first call left behind) produces the same buffer and
error as the first. -/
theorem get_idempotent {σ : Type} (env : GetEnv σ) (s0 : σ) (href : String)
    (fpull : Reference → Option GoErr) (fload : Reference → Except GoErr Chart)
    (hpull : ∀ t r, (env.client.pullChart t r).snd = fpull r)
    (hload : ∀ t r, (env.client.loadChart t r).snd = fload r) :
    (Getter.Get env (Getter.Get env s0 href).fst href).snd =
      (Getter.Get env s0 href).snd :=
  get_output_state_oblivious env href fpull fload hpull hload
    (Getter.Get env s0 href).fst s0

theorem get_idempotent_witness :
    (Getter.Get envEncodeFail
        (Getter.Get envEncodeFail () "oci://registry/testrepo/testchart:1.2.3").fst
        "oci://registry/testrepo/testchart:1.2.3").snd =
      (Getter.Get envEncodeFail () "oci://registry/testrepo/testchart:1.2.3").snd :=
  get_idempotent envEncodeFail () "oci://registry/testrepo/testchart:1.2.3"
    (fun _ => none) (fun _ => Except.ok chartOk)
    (fun _ _ => rfl) (fun _ _ => rfl)

/-- C9: `Get` reads only the host and path of the parsed href: two hrefs whose
parses agree on host and path (but may differ in scheme, user info, query or
fragment) give equal results and equal collaborator traces past the initial
parse of the href itself. -/
theorem get_host_path_only {σ : Type} (env : GetEnv σ) (s : σ)
    (h1 h2 : String) (u1 u2 : URL)
    (hp1 : env.parseURL h1 = Except.ok u1) (hp2 : env.parseURL h2 = Except.ok u2)
    (hhost : u1.host = u2.host) (hpath : u1.path = u2.path) :
    Getter.Get env s h1 = Getter.Get env s h2 ∧
    (Getter.GetTraced env s h1).snd.tail = (Getter.GetTraced env s h2).snd.tail := by
  have hkey : u1.host ++ u1.path = u2.host ++ u2.path := by
    rw [hhost, hpath]
  constructor
  · simp [Getter.Get, hp1, hp2, hkey]
  · simp only [Getter.GetTraced, hp1, hp2, hkey]
    cases hr : env.parseReference (u2.host ++ u2.path) with
    | error e => rfl
    | ok ref =>
      rcases hpc : env.client.pullChart s ref with ⟨s1, pe⟩
      cases pe with
      | some e => simp [hr, hpc]
      | none =>
        rcases hlc : env.client.loadChart s1 ref with ⟨s2, lr⟩
        cases lr with
        | error e => simp [hr, hpc, hlc]
        | ok c => simp [hr, hpc, hlc]

/-- Collaborators (unit client state) under which two distinct hrefs — one
with scheme `oci` and no query, the other with scheme `https`, user info, a
query and a fragment — parse to URLs with the same host and path. -/
def envTwoHrefs : GetEnv Unit :=
  { parseURL := fun href =>
      if href = "oci://registry/testrepo/testchart:latest" then
        Except.ok uTagged
      else
        Except.ok { scheme := "https", user := "alice", host := "registry",
                    path := "/testrepo/testchart:latest", rawQuery := "a=b",
                    fragment := "frag" }
    parseReference := fun _ => Except.ok refOk
    client :=
      { pullChart := fun s _ => (s, none)
        loadChart := fun s _ => (s, Except.ok chartOk) }
    chartWrite := fun c => (c.data, none) }

theorem get_host_path_only_witness :
    Getter.Get envTwoHrefs () "oci://registry/testrepo/testchart:latest" =
      Getter.Get envTwoHrefs () "https://alice@registry/testrepo/testchart:latest?a=b#frag" ∧
    (Getter.GetTraced envTwoHrefs ()
        "oci://registry/testrepo/testchart:latest").snd.tail =
      (Getter.GetTraced envTwoHrefs ()
        "https://alice@registry/testrepo/testchart:latest?a=b#frag").snd.tail :=
  get_host_path_only envTwoHrefs ()
    "oci://registry/testrepo/testchart:latest"
    "https://alice@registry/testrepo/testchart:latest?a=b#frag"
    uTagged
    { scheme := "https", user := "alice", host := "registry",
      path := "/testrepo/testchart:latest", rawQuery := "a=b", fragment := "frag" }
    rfl rfl rfl rfl

/-- C10: the wrapper `RegistryGetter.Get` ignores every option passed to it:
any two option lists give the same result, which is that of the underlying
registry `Getter.Get` on the href alone. -/
theorem registryGetter_ignores_options {σ Opt : Type} (env : GetEnv σ) (s : σ)
    (href : String) (opts1 opts2 : List Opt) :
    RegistryGetter.Get env s href opts1 = RegistryGetter.Get env s href opts2 ∧
    RegistryGetter.Get env s href opts1 = Getter.Get env s href :=
  ⟨rfl, rfl⟩

end HelmRegistry
